import Mathlib

/-!
Shallow embedding of the itinerary builder (`src/lib/itinerary.ts`) of the
sojou repository, together with proofs about the claims of its specification.

Modelling conventions:
* JavaScript numbers are modelled exactly: minute quantities as `Int`,
  scores (which involve the divisions `durationMins / 10` and `used / 60`)
  as `ℚ`.  Since the builder only ever compares two scores, its loops run
  on the integer multiples `priorityScore10 = 10 * priorityScore` and
  `dayScore60 = 60 * dayScore` (proved order-equivalent below), which keeps
  every concrete run reducible by `decide`.  The `-Infinity` initial best
  score is modelled by an `Option` with `none` standing for `-Infinity`.
* `Array.prototype.sort` with a comparator is stable (ES2019); it is
  modelled by `List.insertionSort` with the corresponding non-strict
  relation, which is the (unique) stable sort for that total preorder.
* JavaScript `Map` iteration order is insertion order; a `Map<string, number>`
  is modelled as an association list in which `set` on an existing key
  updates the entry in place.
* The runtime fault that `buildItinerary` hits when `daysCount <= 0` and the
  selection is non-empty (`days[0]` is `undefined` and `placeIntoDay`
  dereferences it) is modelled by `Option`: `none` is a thrown `TypeError`.
* The `lat`/`lng` coordinates of an activity are carried as an opaque pair
  of integers; the builder never reads them.
-/

namespace Sojou

/-- Time blocks of a day (`DayBlock` in `src/lib/itinerary.ts`). -/
inductive DayBlock
  | morning
  | afternoon
  | evening
deriving DecidableEq, Repr

/-- Activity categories (`Category` in `src/types/activity.ts`). -/
inductive Category
  | food
  | culture
  | nature
  | night
  | shopping
deriving DecidableEq, Repr

/-- `Activity` from `src/types/activity.ts`.  Optional fields are `Option`s;
the builder resolves their defaults at use sites, exactly as the source does. -/
structure Activity where
  id : String
  name : String
  place : Option String := none
  photoUrls : List String := []
  category : Category
  tags : List String := []
  durationMins : Int
  priceTier : Nat := 1
  neighborhood : String
  lat : Int := 0
  lng : Int := 0
  openWindows : Option (List DayBlock) := none
  mustBook : Option Bool := none
  popularity : Option Int := none
deriving DecidableEq, Repr

/-- `ScheduledItem = { activity; block }`. -/
structure ScheduledItem where
  activity : Activity
  block : DayBlock
deriving DecidableEq, Repr

/-- A total map keyed by the three blocks (`Record<DayBlock, T>`). -/
structure BlockMap (α : Type) where
  morning : α
  afternoon : α
  evening : α
deriving DecidableEq, Repr

def BlockMap.get {α : Type} (m : BlockMap α) : DayBlock → α
  | .morning => m.morning
  | .afternoon => m.afternoon
  | .evening => m.evening

def BlockMap.set {α : Type} (m : BlockMap α) : DayBlock → α → BlockMap α
  | .morning, v => { m with morning := v }
  | .afternoon, v => { m with afternoon := v }
  | .evening, v => { m with evening := v }

/-- `ItineraryDay` from `src/lib/itinerary.ts`. -/
structure ItineraryDay where
  dayIndex : Nat
  anchorNeighborhood : Option String
  blocks : BlockMap (List ScheduledItem)
  remainingMins : BlockMap Int
deriving DecidableEq, Repr

/-- The record returned by `buildItinerary`. -/
structure BuildResult where
  days : List ItineraryDay
  overflow : List Activity
deriving DecidableEq, Repr

/-- `BLOCK_CAPACITY = { morning: 180, afternoon: 240, evening: 180 }`. -/
def BLOCK_CAPACITY : BlockMap Int :=
  { morning := 180, afternoon := 240, evening := 180 }

/-- The `switch (a.category)` defaults of `preferredBlocks`. -/
def categoryDefaultBlocks : Category → List DayBlock
  | .food => [.evening, .afternoon, .morning]
  | .culture => [.morning, .afternoon, .evening]
  | .nature => [.afternoon, .morning, .evening]
  | .night => [.evening, .afternoon, .morning]
  | .shopping => [.afternoon, .morning, .evening]

/-- `preferredBlocks`: an explicitly declared non-empty `openWindows` list is
used verbatim, otherwise the category default applies. -/
def preferredBlocks (a : Activity) : List DayBlock :=
  match a.openWindows with
  | some ws => if ws ≠ [] then ws else categoryDefaultBlocks a.category
  | none => categoryDefaultBlocks a.category

/-- One `counts.set(a.neighborhood, (counts.get(a.neighborhood) ?? 0) + 1)`
step on the association-list model of the `Map`. -/
def bumpCount : List (String × Nat) → String → List (String × Nat)
  | [], n => [(n, 1)]
  | (k, c) :: rest, n =>
      if k = n then (k, c + 1) :: rest else (k, c) :: bumpCount rest n

/-- The `counts` map of `topNeighborhoodAnchors`, in insertion order. -/
def neighborhoodCounts (activities : List Activity) : List (String × Nat) :=
  activities.foldl (fun m a => bumpCount m a.neighborhood) []

/-- JavaScript `list.slice(0, n)` for an integer `n` (a negative `n` counts
from the end of the list). -/
def sliceTo {α : Type} (l : List α) (n : Int) : List α :=
  l.take (Int.toNat (if n < 0 then (l.length : Int) + n else n))

/-- `topNeighborhoodAnchors`: count the neighborhoods, stable-sort the
entries descending by count, take the first `days` entries, keep the keys. -/
def topNeighborhoodAnchors (activities : List Activity) (days : Int) : List String :=
  (sliceTo
    ((neighborhoodCounts activities).insertionSort fun x y => y.2 ≤ x.2)
    days).map Prod.fst

/-- `canFit`: some preferred block still has room for the whole activity. -/
def canFit (day : ItineraryDay) (a : Activity) : Bool :=
  (preferredBlocks a).any fun b => a.durationMins ≤ day.remainingMins.get b

/-- Minutes consumed on a day, summed over the three blocks. -/
def usedMins (day : ItineraryDay) : Int :=
  (BLOCK_CAPACITY.morning - day.remainingMins.morning) +
    (BLOCK_CAPACITY.afternoon - day.remainingMins.afternoon) +
    (BLOCK_CAPACITY.evening - day.remainingMins.evening)

/-- The guard `day.anchorNeighborhood && day.anchorNeighborhood ===
a.neighborhood`: truthiness (a null or empty-string anchor is falsy)
followed by equality. -/
def anchorMatches (anchor : Option String) (nb : String) : Bool :=
  match anchor with
  | some n => n ≠ "" && n = nb
  | none => false

/-- `dayScore`. -/
def dayScore (day : ItineraryDay) (a : Activity) : ℚ :=
  (if anchorMatches day.anchorNeighborhood a.neighborhood then 3 else 0) +
  (if 0 <
      ((day.blocks.morning.filter fun x => x.activity.category = a.category).length +
        (day.blocks.afternoon.filter fun x => x.activity.category = a.category).length +
        (day.blocks.evening.filter fun x => x.activity.category = a.category).length)
    then 1 else 0) +
  (if canFit day a then 0 else -100) +
  max 0 (10 - (usedMins day : ℚ) / 60)

/-- 60 times `dayScore`, over the integers (`+3` becomes `+180`, `+1`
becomes `+60`, `-100` becomes `-6000` and `max(0, 10 - used/60)` becomes
`max(0, 600 - used)`).  The selection loop only ever compares two day
scores and `x ↦ 60 * x` is strictly monotone, so comparisons of
`dayScore60` values decide exactly as comparisons of `dayScore` values
(`dayScore60_cast` below). -/
def dayScore60 (day : ItineraryDay) (a : Activity) : Int :=
  (if anchorMatches day.anchorNeighborhood a.neighborhood then 180 else 0) +
  (if 0 <
      ((day.blocks.morning.filter fun x => x.activity.category = a.category).length +
        (day.blocks.afternoon.filter fun x => x.activity.category = a.category).length +
        (day.blocks.evening.filter fun x => x.activity.category = a.category).length)
    then 60 else 0) +
  (if canFit day a then 0 else -6000) +
  max 0 (600 - usedMins day)

/-- The body of a successful `placeIntoDay` iteration: push the item onto
block `b` and decrement that block's remaining capacity. -/
def applyPlace (day : ItineraryDay) (a : Activity) (b : DayBlock) : ItineraryDay :=
  { day with
    blocks := day.blocks.set b (day.blocks.get b ++ [⟨a, b⟩]),
    remainingMins :=
      day.remainingMins.set b (day.remainingMins.get b - a.durationMins) }

/-- The block-scanning loop of `placeIntoDay`; `some` is a successful
placement, `none` is `return false`. -/
def placeLoop (day : ItineraryDay) (a : Activity) : List DayBlock → Option ItineraryDay
  | [] => none
  | b :: rest =>
      if a.durationMins ≤ day.remainingMins.get b then some (applyPlace day a b)
      else placeLoop day a rest

/-- `placeIntoDay`. -/
def placeIntoDay (day : ItineraryDay) (a : Activity) : Option ItineraryDay :=
  placeLoop day a (preferredBlocks a)

/-- The priority score of the ranking comparator:
`(popularity ?? 50) + (mustBook ? 15 : 0) + durationMins / 10`. -/
def priorityScore (a : Activity) : ℚ :=
  ((a.popularity.getD 50 : Int) : ℚ) +
    (if a.mustBook.getD false then 15 else 0) +
    (a.durationMins : ℚ) / 10

/-- 10 times `priorityScore`, over the integers.  The sort comparator only
compares two priority scores and `x ↦ 10 * x` is strictly monotone, so
comparisons of `priorityScore10` values decide exactly as comparisons of
`priorityScore` values (`priorityScore10_cast` below). -/
def priorityScore10 (a : Activity) : Int :=
  10 * a.popularity.getD 50 + (if a.mustBook.getD false then 150 else 0) +
    a.durationMins

/-- `[...selected].sort((a, b) => bp - ap)`: the stable descending sort by
priority score. -/
def processOrder (selected : List Activity) : List Activity :=
  selected.insertionSort fun a b => priorityScore10 b ≤ priorityScore10 a

/-- The freshly initialised days array of `buildItinerary`. -/
def initDays (anchors : List String) (daysCount : Int) : List ItineraryDay :=
  (List.range daysCount.toNat).map fun i =>
    { dayIndex := i,
      anchorNeighborhood := anchors[i]?,
      blocks := { morning := [], afternoon := [], evening := [] },
      remainingMins := BLOCK_CAPACITY }

/-- `s > best` where `best : Option Int` models `-Infinity` by `none`. -/
def beatsBest (s : Int) : Option Int → Bool
  | none => true
  | some b => b < s

/-- The day-selection loop of `buildItinerary`: walk the days (the first
argument is the index of the next day), replacing the current best only on
a strictly greater score. -/
def pickFrom (a : Activity) :
    List ItineraryDay → Nat → Option Nat → Option Int → Option Nat
  | [], _, bestIdx, _ => bestIdx
  | d :: rest, i, bestIdx, best =>
      if beatsBest (dayScore60 d a) best then
        pickFrom a rest (i + 1) (some i) (some (dayScore60 d a))
      else pickFrom a rest (i + 1) bestIdx best

/-- The index of `bestDay` after the selection loop (`none` only when there
are no days at all, in which case `bestDay` is `undefined`). -/
def pickBestIdx (days : List ItineraryDay) (a : Activity) : Option Nat :=
  pickFrom a days 0 (if days.isEmpty then none else some 0) none

/-- The main placement loop of `buildItinerary` over the ranked activities.
`none` models the `TypeError` thrown by `placeIntoDay(undefined, a)` when
the days array is empty. -/
def assignLoop : List Activity → List ItineraryDay → List Activity →
    Option (List ItineraryDay × List Activity)
  | [], days, overflow => some (days, overflow)
  | a :: rest, days, overflow =>
      match pickBestIdx days a with
      | none => none
      | some i =>
          match days[i]? with
          | none => none
          | some d =>
              match placeIntoDay d a with
              | some d' => assignLoop rest (days.set i d') overflow
              | none => assignLoop rest days (overflow ++ [a])

/-- `buildItinerary(selected, daysCount)`; `none` is a thrown `TypeError`. -/
def buildItinerary (selected : List Activity) (daysCount : Int) :
    Option BuildResult :=
  (assignLoop (processOrder selected)
      (initDays (topNeighborhoodAnchors selected daysCount) daysCount)
      []).map fun p => { days := p.1, overflow := p.2 }

/-! Observers used by the statements. -/

/-- Total scheduled minutes of a list of items. -/
def sumDur (items : List ScheduledItem) : Int :=
  (items.map fun it => it.activity.durationMins).sum

/-- The activities scheduled on one day, morning then afternoon then evening. -/
def dayActivities (d : ItineraryDay) : List Activity :=
  (d.blocks.morning ++ d.blocks.afternoon ++ d.blocks.evening).map
    fun it => it.activity

/-- All activities scheduled across a list of days. -/
def allScheduled : List ItineraryDay → List Activity
  | [] => []
  | d :: rest => dayActivities d ++ allScheduled rest

/-! Definitions written from the specification's wording, to be compared
with the ones read off the source. -/

/-- Per-day structural invariant: each block's remaining minutes are its
initial capacity minus the minutes already scheduled there (and hence
non-negative), and every stored item is tagged with its own block. -/
def DayInv (d : ItineraryDay) : Prop :=
  ∀ b, d.remainingMins.get b = BLOCK_CAPACITY.get b - sumDur (d.blocks.get b) ∧
    0 ≤ d.remainingMins.get b ∧
    ∀ it ∈ d.blocks.get b, it.block = b

/-- Spec §4.4: the category-default block priority orders, as the table
states them (food and night share a row, as do nature and shopping/other). -/
def specCategoryOrder (c : Category) : List DayBlock :=
  if c = .food ∨ c = .night then [.evening, .afternoon, .morning]
  else if c = .culture then [.morning, .afternoon, .evening]
  else [.afternoon, .morning, .evening]

/-- Spec §4.4: a declared non-empty open-window list is used verbatim,
otherwise the category default applies. -/
def specPreferredBlocks (a : Activity) : List DayBlock :=
  match a.openWindows with
  | some ws => if ws ≠ [] then ws else specCategoryOrder a.category
  | none => specCategoryOrder a.category

/-- Spec §4.1: the list of neighborhoods in order of first appearance. -/
def firstSeen (names : List String) : List String :=
  names.foldl (fun acc x => if x ∈ acc then acc else acc ++ [x]) []

/-- Spec §4.1: count occurrences of each neighborhood (first-appearance
order for ties), sort descending by count, take the first `days` entries. -/
def specTopNeighborhoodAnchors (activities : List Activity) (days : Int) :
    List String :=
  sliceTo
    ((firstSeen (activities.map fun a => a.neighborhood)).insertionSort
      fun x y =>
        (activities.map fun a => a.neighborhood).count y ≤
          (activities.map fun a => a.neighborhood).count x)
    days

/-- Spec §4.3: the additive day-score formula, literally: `+3` on anchor
match, `+1` if the day already holds an item of the same category, `-100`
if no preferred block has room, plus `max(0, 10 - totalUsedMinutes/60)`. -/
def specDayScore (day : ItineraryDay) (a : Activity) : ℚ :=
  (if day.anchorNeighborhood = some a.neighborhood then 3 else 0) +
    (if ∃ it ∈ dayActivities day, it.category = a.category then 1 else 0) +
    (if ∃ b ∈ preferredBlocks a, a.durationMins ≤ day.remainingMins.get b
      then 0 else -100) +
    max 0 (10 - (usedMins day : ℚ) / 60)

/-- The value stored for key `k` in the association-list model of the
counts `Map` (`0` when absent, as `counts.get(k) ?? 0` resolves). -/
def lookupCount (m : List (String × Nat)) (k : String) : Nat :=
  match m.find? fun p => p.1 = k with
  | some p => p.2
  | none => 0

/-! Concrete sample data (taken from the repository's test suite). -/

/-- The `makeActivity` baseline of the test suite. -/
def actLouvre : Activity :=
  { id := "a1", name := "Louvre", category := .culture, durationMins := 90,
    neighborhood := "1st Arr." }

/-- The day produced for `buildItinerary [actLouvre] 1`. -/
def day0Louvre : ItineraryDay :=
  { dayIndex := 0, anchorNeighborhood := some "1st Arr.",
    blocks := { morning := [⟨actLouvre, .morning⟩], afternoon := [], evening := [] },
    remainingMins := { morning := 90, afternoon := 240, evening := 180 } }

/-- An empty trailing day with no anchor. -/
def emptyDay (i : Nat) : ItineraryDay :=
  { dayIndex := i, anchorNeighborhood := none,
    blocks := { morning := [], afternoon := [], evening := [] },
    remainingMins := BLOCK_CAPACITY }

/-- The result of `buildItinerary [actLouvre] 1`. -/
def resLouvre1 : BuildResult := { days := [day0Louvre], overflow := [] }

/-- The result of `buildItinerary [actLouvre] 2`. -/
def resLouvre2 : BuildResult := { days := [day0Louvre, emptyDay 1], overflow := [] }

/-- The result of `buildItinerary [] 2`. -/
def resEmpty2 : BuildResult := { days := [emptyDay 0, emptyDay 1], overflow := [] }

/-- The capacity-overflow scenario of the test suite: durations
180/240/180/120 against a single 600-minute day. -/
def actsFull : List Activity :=
  [{ id := "a1", name := "A", category := .culture, durationMins := 180,
      neighborhood := "1st Arr." },
    { id := "a2", name := "B", category := .nature, durationMins := 240,
      neighborhood := "1st Arr." },
    { id := "a3", name := "C", category := .night, durationMins := 180,
      neighborhood := "1st Arr." },
    { id := "a4", name := "D", category := .food, durationMins := 120,
      neighborhood := "1st Arr." }]

/-- The single, completely filled day of `buildItinerary actsFull 1`. -/
def dayFull : ItineraryDay :=
  { dayIndex := 0, anchorNeighborhood := some "1st Arr.",
    blocks := { morning := [⟨actsFull[0], .morning⟩],
                afternoon := [⟨actsFull[1], .afternoon⟩],
                evening := [⟨actsFull[2], .evening⟩] },
    remainingMins := { morning := 0, afternoon := 0, evening := 0 } }

/-- The result of `buildItinerary actsFull 1`: the day is full and the
food activity overflows. -/
def resFull1 : BuildResult :=
  { days := [dayFull], overflow := [actsFull[3]] }

/-- The anchor-frequency scenario of the test suite: three activities in
Marais, one in Montmartre. -/
def actsMarais : List Activity :=
  [{ id := "a1", name := "A", category := .culture, durationMins := 90,
      neighborhood := "Marais" },
    { id := "a2", name := "B", category := .culture, durationMins := 90,
      neighborhood := "Marais" },
    { id := "a3", name := "C", category := .culture, durationMins := 90,
      neighborhood := "Marais" },
    { id := "a4", name := "D", category := .culture, durationMins := 90,
      neighborhood := "Montmartre" }]

/-- Day 0 of `buildItinerary actsMarais 2`. -/
def dayM0 : ItineraryDay :=
  { dayIndex := 0, anchorNeighborhood := some "Marais",
    blocks := { morning := [⟨actsMarais[0], .morning⟩, ⟨actsMarais[1], .morning⟩],
                afternoon := [⟨actsMarais[2], .afternoon⟩],
                evening := [] },
    remainingMins := { morning := 0, afternoon := 150, evening := 180 } }

/-- Day 1 of `buildItinerary actsMarais 2`. -/
def dayM1 : ItineraryDay :=
  { dayIndex := 1, anchorNeighborhood := some "Montmartre",
    blocks := { morning := [⟨actsMarais[3], .morning⟩],
                afternoon := [],
                evening := [] },
    remainingMins := { morning := 90, afternoon := 240, evening := 180 } }

/-- The result of `buildItinerary actsMarais 2`. -/
def resMarais2 : BuildResult := { days := [dayM0, dayM1], overflow := [] }

/-! ### Lemmas about block maps and single placements -/

theorem BlockMap.get_set_self {α : Type} (m : BlockMap α) (b : DayBlock) (v : α) :
    (m.set b v).get b = v := by
  cases b <;> rfl

theorem BlockMap.get_set_ne {α : Type} (m : BlockMap α) {b b' : DayBlock} (v : α)
    (h : b' ≠ b) : (m.set b v).get b' = m.get b' := by
  cases b <;> cases b' <;> first
    | rfl
    | exact absurd rfl h

theorem sumDur_append (l₁ l₂ : List ScheduledItem) :
    sumDur (l₁ ++ l₂) = sumDur l₁ + sumDur l₂ := by
  simp [sumDur]

theorem sumDur_single (a : Activity) (b : DayBlock) :
    sumDur [⟨a, b⟩] = a.durationMins := by
  simp [sumDur]

theorem applyPlace_dayIndex (day : ItineraryDay) (a : Activity) (b : DayBlock) :
    (applyPlace day a b).dayIndex = day.dayIndex := rfl

theorem applyPlace_anchor (day : ItineraryDay) (a : Activity) (b : DayBlock) :
    (applyPlace day a b).anchorNeighborhood = day.anchorNeighborhood := rfl

theorem applyPlace_blocks_get (day : ItineraryDay) (a : Activity) (b b' : DayBlock) :
    (applyPlace day a b).blocks.get b' =
      if b' = b then day.blocks.get b ++ [⟨a, b⟩] else day.blocks.get b' := by
  by_cases h : b' = b
  · subst h; simp [applyPlace, BlockMap.get_set_self]
  · simp [applyPlace, h, BlockMap.get_set_ne _ _ h]

theorem applyPlace_remaining_get (day : ItineraryDay) (a : Activity) (b b' : DayBlock) :
    (applyPlace day a b).remainingMins.get b' =
      if b' = b then day.remainingMins.get b - a.durationMins
      else day.remainingMins.get b' := by
  by_cases h : b' = b
  · subst h; simp [applyPlace, BlockMap.get_set_self]
  · simp [applyPlace, h, BlockMap.get_set_ne _ _ h]

theorem DayInv.applyPlace {day : ItineraryDay} {a : Activity} {b : DayBlock}
    (hinv : DayInv day) (hfit : a.durationMins ≤ day.remainingMins.get b) :
    DayInv (Sojou.applyPlace day a b) := by
  intro b'
  obtain ⟨hcap, hnn, htag⟩ := hinv b'
  obtain ⟨hcapb, hnnb, htagb⟩ := hinv b
  by_cases h : b' = b
  · subst h
    refine ⟨?_, ?_, ?_⟩
    · rw [applyPlace_remaining_get, applyPlace_blocks_get, if_pos rfl, if_pos rfl,
        sumDur_append, sumDur_single, hcap]
      ring
    · rw [applyPlace_remaining_get, if_pos rfl]
      omega
    · intro it hit
      rw [applyPlace_blocks_get, if_pos rfl] at hit
      rcases List.mem_append.mp hit with h' | h'
      · exact htag it h'
      · rcases List.mem_singleton.mp h' with rfl
        rfl
  · refine ⟨?_, ?_, ?_⟩
    · rw [applyPlace_remaining_get, applyPlace_blocks_get, if_neg h, if_neg h]
      exact hcap
    · rw [applyPlace_remaining_get, if_neg h]
      exact hnn
    · intro it hit
      rw [applyPlace_blocks_get, if_neg h] at hit
      exact htag it hit

theorem dayActivities_applyPlace (day : ItineraryDay) (a : Activity) (b : DayBlock) :
    (dayActivities (applyPlace day a b)).Perm (dayActivities day ++ [a]) := by
  apply List.perm_iff_count.mpr
  intro x
  cases b <;>
    simp [dayActivities, applyPlace, BlockMap.set, BlockMap.get,
      List.count_append, List.count_cons] <;>
    omega

/-- `placeLoop` is the first-fit search over the given block order. -/
theorem placeLoop_eq_find (day : ItineraryDay) (a : Activity) (bs : List DayBlock) :
    placeLoop day a bs =
      (bs.find? fun b => a.durationMins ≤ day.remainingMins.get b).map
        (applyPlace day a) := by
  induction bs with
  | nil => rfl
  | cons b rest ih =>
      by_cases h : a.durationMins ≤ day.remainingMins.get b
      · simp [placeLoop, List.find?_cons, h]
      · simp [placeLoop, List.find?_cons, h, ih]

theorem placeIntoDay_some {day : ItineraryDay} {a : Activity} {d' : ItineraryDay}
    (h : placeIntoDay day a = some d') :
    ∃ b ∈ preferredBlocks a,
      a.durationMins ≤ day.remainingMins.get b ∧ d' = applyPlace day a b := by
  rw [placeIntoDay, placeLoop_eq_find] at h
  rcases Option.map_eq_some'.mp h with ⟨b, hfind, rfl⟩
  exact ⟨b, List.mem_of_find?_eq_some hfind,
    by simpa using List.find?_some hfind, rfl⟩

theorem placeIntoDay_dayIndex {day : ItineraryDay} {a : Activity} {d' : ItineraryDay}
    (h : placeIntoDay day a = some d') : d'.dayIndex = day.dayIndex := by
  rcases placeIntoDay_some h with ⟨b, -, -, rfl⟩
  rfl

theorem placeIntoDay_anchor {day : ItineraryDay} {a : Activity} {d' : ItineraryDay}
    (h : placeIntoDay day a = some d') :
    d'.anchorNeighborhood = day.anchorNeighborhood := by
  rcases placeIntoDay_some h with ⟨b, -, -, rfl⟩
  rfl

theorem placeIntoDay_inv {day : ItineraryDay} {a : Activity} {d' : ItineraryDay}
    (hinv : DayInv day) (h : placeIntoDay day a = some d') : DayInv d' := by
  rcases placeIntoDay_some h with ⟨b, -, hfit, rfl⟩
  exact hinv.applyPlace hfit

theorem placeIntoDay_perm {day : ItineraryDay} {a : Activity} {d' : ItineraryDay}
    (h : placeIntoDay day a = some d') :
    (dayActivities d').Perm (dayActivities day ++ [a]) := by
  rcases placeIntoDay_some h with ⟨b, -, -, rfl⟩
  exact dayActivities_applyPlace day a b

/-! ### Lemmas about the day-selection loop -/

/-- Characterization of a running selection loop whose current best is the
score `s` recorded at index `j`: it ends on the current best (all remaining
scores at most `s`) or on the first remaining day that strictly beats every
day before it and at least ties every day after it. -/
theorem pickFrom_run (a : Activity) :
    ∀ (ds : List ItineraryDay) (i0 j : Nat) (s : Int),
      ∃ k, pickFrom a ds i0 (some j) (some s) = some k ∧
        ((k = j ∧ ∀ (m : Nat) e, ds[m]? = some e → dayScore60 e a ≤ s) ∨
          (∃ m d, ds[m]? = some d ∧ k = i0 + m ∧ s < dayScore60 d a ∧
            (∀ (m' : Nat) e, ds[m']? = some e → dayScore60 e a ≤ dayScore60 d a) ∧
            (∀ (m' : Nat) e, m' < m → ds[m']? = some e → dayScore60 e a < dayScore60 d a))) := by
  intro ds
  induction ds with
  | nil =>
      intro i0 j s
      exact ⟨j, rfl, Or.inl ⟨rfl, by simp⟩⟩
  | cons d rest ih =>
      intro i0 j s
      by_cases hlt : s < dayScore60 d a
      · obtain ⟨k, hk, hcase⟩ := ih (i0 + 1) i0 (dayScore60 d a)
        refine ⟨k, ?_, ?_⟩
        · rw [pickFrom, if_pos (by simpa [beatsBest] using hlt)]
          exact hk
        · rcases hcase with ⟨rfl, hall⟩ | ⟨m, d', hmd, hk', hlt', hall, hstrict⟩
          · refine Or.inr ⟨0, d, by simp, by omega, hlt, ?_, ?_⟩
            · intro m' e hm'
              cases m' with
              | zero => simp at hm'; subst hm'; exact le_refl _
              | succ m'' => exact hall m'' e (by simpa using hm')
            · intro m' e hm'
              omega
          · refine Or.inr ⟨m + 1, d', by simpa using hmd, by omega,
              lt_trans hlt hlt', ?_, ?_⟩
            · intro m' e hm'
              cases m' with
              | zero => simp at hm'; subst hm'; exact le_of_lt hlt'
              | succ m'' => exact hall m'' e (by simpa using hm')
            · intro m' e hm'lt hm'
              cases m' with
              | zero => simp at hm'; subst hm'; exact hlt'
              | succ m'' => exact hstrict m'' e (by omega) (by simpa using hm')
      · obtain ⟨k, hk, hcase⟩ := ih (i0 + 1) j s
        refine ⟨k, ?_, ?_⟩
        · rw [pickFrom, if_neg (by simpa [beatsBest] using hlt)]
          exact hk
        · rcases hcase with ⟨rfl, hall⟩ | ⟨m, d', hmd, hk', hlt', hall, hstrict⟩
          · refine Or.inl ⟨rfl, ?_⟩
            intro m' e hm'
            cases m' with
            | zero => simp at hm'; subst hm'; exact not_lt.mp hlt
            | succ m'' => exact hall m'' e (by simpa using hm')
          · refine Or.inr ⟨m + 1, d', by simpa using hmd, by omega, hlt', ?_, ?_⟩
            · intro m' e hm'
              cases m' with
              | zero =>
                  simp at hm'; subst hm'
                  exact le_of_lt (lt_of_le_of_lt (not_lt.mp hlt) hlt')
              | succ m'' => exact hall m'' e (by simpa using hm')
            · intro m' e hm'lt hm'
              cases m' with
              | zero =>
                  simp at hm'; subst hm'
                  exact lt_of_le_of_lt (not_lt.mp hlt) hlt'
              | succ m'' => exact hstrict m'' e (by omega) (by simpa using hm')

/-- The selection loop of `buildItinerary` picks the earliest day of maximal
score: every day scores at most the winner, and every day before the winner
scores strictly less. -/
theorem pickBestIdx_spec (days : List ItineraryDay) (a : Activity)
    (hne : days ≠ []) :
    ∃ i d, pickBestIdx days a = some i ∧ days[i]? = some d ∧
      (∀ (j : Nat) e, days[j]? = some e → dayScore60 e a ≤ dayScore60 d a) ∧
      (∀ (j : Nat) e, j < i → days[j]? = some e → dayScore60 e a < dayScore60 d a) := by
  match days, hne with
  | d0 :: rest, _ =>
    have h0 : pickBestIdx (d0 :: rest) a =
        pickFrom a rest 1 (some 0) (some (dayScore60 d0 a)) := rfl
    obtain ⟨k, hk, hcase⟩ := pickFrom_run a rest 1 0 (dayScore60 d0 a)
    rcases hcase with ⟨rfl, hall⟩ | ⟨m, d, hmd, hk1, hlt, hall, hstrict⟩
    · refine ⟨0, d0, h0.trans hk, by simp, ?_, ?_⟩
      · intro j e hj
        cases j with
        | zero => simp at hj; subst hj; exact le_refl _
        | succ j' => exact hall j' e (by simpa using hj)
      · intro j e hj hje
        omega
    · refine ⟨k, d, h0.trans hk, ?_, ?_, ?_⟩
      · rw [hk1, Nat.add_comm]
        simpa using hmd
      · intro j e hj
        cases j with
        | zero => simp at hj; subst hj; exact le_of_lt hlt
        | succ j' => exact hall j' e (by simpa using hj)
      · intro j e hjk hj
        cases j with
        | zero => simp at hj; subst hj; exact hlt
        | succ j' => exact hstrict j' e (by omega) (by simpa using hj)

/-- With no days at all, `bestDay` is `undefined`. -/
theorem pickBestIdx_nil (a : Activity) : pickBestIdx [] a = none := rfl

/-! ### Lemmas about the main placement loop -/

theorem mem_of_getElem?_eq {α : Type} {l : List α} {i : Nat} {x : α}
    (h : l[i]? = some x) : x ∈ l := by
  obtain ⟨hi, rfl⟩ := List.getElem?_eq_some.mp h
  exact List.getElem_mem hi

theorem set_getElem?_self {α : Type} :
    ∀ (l : List α) (i : Nat) (x : α), l[i]? = some x → l.set i x = l := by
  intro l
  induction l with
  | nil => simp
  | cons y ys ih =>
      intro i x h
      cases i with
      | zero =>
          simp only [List.getElem?_cons_zero, Option.some.injEq] at h
          simp [h]
      | succ n =>
          simp only [List.getElem?_cons_succ] at h
          simp [List.set_cons_succ, ih n x h]

theorem assignLoop_length {acts : List Activity} :
    ∀ {days ov days' ov'},
      assignLoop acts days ov = some (days', ov') → days'.length = days.length := by
  induction acts with
  | nil =>
      intro days ov days' ov' h
      simp only [assignLoop, Option.some.injEq, Prod.mk.injEq] at h
      rw [← h.1]
  | cons a rest ih =>
      intro days ov days' ov' h
      rw [assignLoop] at h
      cases hp : pickBestIdx days a with
      | none => simp only [hp] at h; exact Option.noConfusion h
      | some i =>
          simp only [hp] at h
          cases hg : days[i]? with
          | none => simp only [hg] at h; exact Option.noConfusion h
          | some d =>
              simp only [hg] at h
              cases hpl : placeIntoDay d a with
              | some d' =>
                  simp only [hpl] at h
                  simpa [List.length_set] using ih h
              | none => simp only [hpl] at h; exact ih h

theorem assignLoop_map_eq {β : Type} {f : ItineraryDay → β}
    (hf : ∀ day a d', placeIntoDay day a = some d' → f d' = f day)
    {acts : List Activity} :
    ∀ {days ov days' ov'},
      assignLoop acts days ov = some (days', ov') →
        days'.map f = days.map f := by
  induction acts with
  | nil =>
      intro days ov days' ov' h
      simp only [assignLoop, Option.some.injEq, Prod.mk.injEq] at h
      rw [← h.1]
  | cons a rest ih =>
      intro days ov days' ov' h
      rw [assignLoop] at h
      cases hp : pickBestIdx days a with
      | none => simp only [hp] at h; exact Option.noConfusion h
      | some i =>
          simp only [hp] at h
          cases hg : days[i]? with
          | none => simp only [hg] at h; exact Option.noConfusion h
          | some d =>
              simp only [hg] at h
              cases hpl : placeIntoDay d a with
              | some d' =>
                  simp only [hpl] at h
                  have hmap := ih h
                  rw [List.map_set, hf d a d' hpl] at hmap
                  rwa [set_getElem?_self (days.map f) i (f d)
                    (by rw [List.getElem?_map, hg]; rfl)] at hmap
              | none => simp only [hpl] at h; exact ih h

theorem assignLoop_inv {acts : List Activity} :
    ∀ {days ov days' ov'},
      (∀ d ∈ days, DayInv d) →
      assignLoop acts days ov = some (days', ov') → ∀ d ∈ days', DayInv d := by
  induction acts with
  | nil =>
      intro days ov days' ov' hd h
      simp only [assignLoop, Option.some.injEq, Prod.mk.injEq] at h
      rw [← h.1]
      exact hd
  | cons a rest ih =>
      intro days ov days' ov' hd h
      rw [assignLoop] at h
      cases hp : pickBestIdx days a with
      | none => simp only [hp] at h; exact Option.noConfusion h
      | some i =>
          simp only [hp] at h
          cases hg : days[i]? with
          | none => simp only [hg] at h; exact Option.noConfusion h
          | some d =>
              simp only [hg] at h
              cases hpl : placeIntoDay d a with
              | some d' =>
                  simp only [hpl] at h
                  refine ih ?_ h
                  intro e he
                  rcases List.mem_or_eq_of_mem_set he with he' | rfl
                  · exact hd e he'
                  · exact placeIntoDay_inv (hd d (mem_of_getElem?_eq hg)) hpl
              | none => simp only [hpl] at h; exact ih hd h

theorem allScheduled_append (l₁ l₂ : List ItineraryDay) :
    allScheduled (l₁ ++ l₂) = allScheduled l₁ ++ allScheduled l₂ := by
  induction l₁ with
  | nil => rfl
  | cons d rest ih => simp [allScheduled, ih]

theorem allScheduled_set_perm {a : Activity} :
    ∀ {days : List ItineraryDay} {i : Nat} {d d' : ItineraryDay},
      days[i]? = some d →
      (dayActivities d').Perm (dayActivities d ++ [a]) →
      (allScheduled (days.set i d')).Perm (allScheduled days ++ [a]) := by
  intro days
  induction days with
  | nil => intro i d d' h; simp at h
  | cons e rest ih =>
      intro i d d' hg hperm
      cases i with
      | zero =>
          simp only [List.getElem?_cons_zero, Option.some.injEq] at hg
          subst hg
          simp only [List.set_cons_zero, allScheduled]
          apply List.perm_iff_count.mpr
          intro x
          have c := hperm.count_eq x
          simp only [List.count_append, List.count_cons, List.count_nil] at c ⊢
          omega
      | succ n =>
          simp only [List.getElem?_cons_succ] at hg
          simp only [List.set_cons_succ, allScheduled, List.append_assoc]
          exact (ih hg hperm).append_left _

theorem assignLoop_sched_perm {acts : List Activity} :
    ∀ {days ov days' ov'},
      assignLoop acts days ov = some (days', ov') →
        (allScheduled days' ++ ov').Perm (allScheduled days ++ ov ++ acts) := by
  induction acts with
  | nil =>
      intro days ov days' ov' h
      simp only [assignLoop, Option.some.injEq, Prod.mk.injEq] at h
      rw [← h.1, ← h.2]
      simp
  | cons a rest ih =>
      intro days ov days' ov' h
      rw [assignLoop] at h
      cases hp : pickBestIdx days a with
      | none => simp only [hp] at h; exact Option.noConfusion h
      | some i =>
          simp only [hp] at h
          cases hg : days[i]? with
          | none => simp only [hg] at h; exact Option.noConfusion h
          | some d =>
              simp only [hg] at h
              cases hpl : placeIntoDay d a with
              | some d' =>
                  simp only [hpl] at h
                  have h1 := ih h
                  have h2 := allScheduled_set_perm hg (placeIntoDay_perm hpl)
                  apply List.perm_iff_count.mpr
                  intro x
                  have c1 := h1.count_eq x
                  have c2 := h2.count_eq x
                  simp only [List.count_append, List.count_cons, List.count_nil] at c1 c2 ⊢
                  omega
              | none =>
                  simp only [hpl] at h
                  have h1 := ih h
                  apply List.perm_iff_count.mpr
                  intro x
                  have c1 := h1.count_eq x
                  simp only [List.count_append, List.count_cons, List.count_nil] at c1 ⊢
                  omega

theorem assignLoop_overflow {acts : List Activity} :
    ∀ {days ov days' ov'},
      assignLoop acts days ov = some (days', ov') →
        ∃ t, ov' = ov ++ t ∧ t.Sublist acts := by
  induction acts with
  | nil =>
      intro days ov days' ov' h
      simp only [assignLoop, Option.some.injEq, Prod.mk.injEq] at h
      exact ⟨[], by rw [← h.2]; simp, List.nil_sublist _⟩
  | cons a rest ih =>
      intro days ov days' ov' h
      rw [assignLoop] at h
      cases hp : pickBestIdx days a with
      | none => simp only [hp] at h; exact Option.noConfusion h
      | some i =>
          simp only [hp] at h
          cases hg : days[i]? with
          | none => simp only [hg] at h; exact Option.noConfusion h
          | some d =>
              simp only [hg] at h
              cases hpl : placeIntoDay d a with
              | some d' =>
                  simp only [hpl] at h
                  obtain ⟨t, rfl, ht⟩ := ih h
                  exact ⟨t, rfl, ht.cons a⟩
              | none =>
                  simp only [hpl] at h
                  obtain ⟨t, ht, hsub⟩ := ih h
                  exact ⟨a :: t, by rw [ht]; simp, hsub.cons₂ a⟩

theorem assignLoop_isSome {acts : List Activity} :
    ∀ {days : List ItineraryDay} {ov}, days ≠ [] →
      (assignLoop acts days ov).isSome := by
  induction acts with
  | nil => intro days ov _; simp [assignLoop]
  | cons a rest ih =>
      intro days ov hne
      obtain ⟨i, d, hp, hg, -, -⟩ := pickBestIdx_spec days a hne
      rw [assignLoop]
      simp only [hp, hg]
      cases hpl : placeIntoDay d a with
      | some d' =>
          simp only [hpl]
          refine ih ?_
          intro hset
          exact hne ((List.set_eq_nil_iff i d').mp hset)
      | none => simp only [hpl]; exact ih hne

theorem assignLoop_nil_days (acts : List Activity) (ov : List Activity) :
    assignLoop acts [] ov = if acts = [] then some ([], ov) else none := by
  cases acts with
  | nil => rfl
  | cons a rest => rfl

/-! ### Lemmas about the freshly initialised days and `buildItinerary` -/

theorem initDays_length (anchors : List String) (n : Int) :
    (initDays anchors n).length = n.toNat := by
  simp [initDays]

theorem initDays_map_dayIndex (anchors : List String) (n : Int) :
    (initDays anchors n).map (fun d => d.dayIndex) = List.range n.toNat := by
  rw [initDays, List.map_map]
  exact List.map_id _

theorem initDays_map_anchor (anchors : List String) (n : Int) :
    (initDays anchors n).map (fun d => d.anchorNeighborhood) =
      (List.range n.toNat).map (fun i => anchors[i]?) := by
  simp [initDays, List.map_map]

theorem initDays_inv (anchors : List String) (n : Int) :
    ∀ d ∈ initDays anchors n, DayInv d := by
  intro d hd
  simp only [initDays, List.mem_map, List.mem_range] at hd
  obtain ⟨i, -, rfl⟩ := hd
  intro b
  cases b <;>
    exact ⟨by simp [BlockMap.get, BLOCK_CAPACITY, sumDur],
      by simp [BlockMap.get, BLOCK_CAPACITY],
      by simp [BlockMap.get]⟩

theorem allScheduled_eq_nil {days : List ItineraryDay}
    (h : ∀ d ∈ days, dayActivities d = []) : allScheduled days = [] := by
  induction days with
  | nil => rfl
  | cons d rest ih =>
      simp only [allScheduled]
      rw [h d (by simp), ih fun e he => h e (by simp [he])]
      rfl

theorem allScheduled_initDays (anchors : List String) (n : Int) :
    allScheduled (initDays anchors n) = [] := by
  apply allScheduled_eq_nil
  intro d hd
  simp only [initDays, List.mem_map, List.mem_range] at hd
  obtain ⟨i, -, rfl⟩ := hd
  rfl

theorem buildItinerary_some {sel : List Activity} {n : Int} {r : BuildResult}
    (h : buildItinerary sel n = some r) :
    assignLoop (processOrder sel) (initDays (topNeighborhoodAnchors sel n) n) []
      = some (r.days, r.overflow) := by
  rcases Option.map_eq_some'.mp h with ⟨⟨ds, ov⟩, hassign, rfl⟩
  exact hassign

theorem buildItinerary_isSome_of_pos {sel : List Activity} {n : Int}
    (h : 1 ≤ n) : (buildItinerary sel n).isSome := by
  have hne : initDays (topNeighborhoodAnchors sel n) n ≠ [] := by
    apply List.ne_nil_of_length_pos
    rw [initDays_length]
    omega
  have hs : (assignLoop (processOrder sel)
      (initDays (topNeighborhoodAnchors sel n) n) []).isSome :=
    assignLoop_isSome hne
  rw [buildItinerary]
  cases has : assignLoop (processOrder sel)
      (initDays (topNeighborhoodAnchors sel n) n) [] with
  | none => rw [has] at hs; simp at hs
  | some p => rfl

theorem buildItinerary_nonpos {sel : List Activity} {n : Int} (h : n ≤ 0) :
    buildItinerary sel n =
      if sel = [] then some { days := [], overflow := [] } else none := by
  have hinit : initDays (topNeighborhoodAnchors sel n) n = [] := by
    have hlen := initDays_length (topNeighborhoodAnchors sel n) n
    have h0 : n.toNat = 0 := by omega
    rw [h0] at hlen
    exact List.length_eq_zero.mp hlen
  rw [buildItinerary, hinit, assignLoop_nil_days]
  by_cases hsel : sel = []
  · subst hsel
    simp [processOrder, List.insertionSort]
  · have hp : (processOrder sel).Perm sel := List.perm_insertionSort _ sel
    have hne : processOrder sel ≠ [] := by
      intro hh
      rw [hh] at hp
      exact hsel (List.length_eq_zero.mp hp.length_eq.symm)
    simp [hne, hsel]

/-! ### C1 -/

/-- C1 (corrected): the builder is total for `daysCount ≥ 1` and for empty
selections, and when it returns for `daysCount ≤ 0` it returns no days and
an empty overflow; but for `daysCount ≤ 0` with a non-empty selection it
throws a `TypeError` (modelled `none`) instead of returning the input as
overflow. -/
theorem buildItinerary_totality_amended (sel : List Activity) (n : Int) :
    ((buildItinerary sel n).isSome ↔ (1 ≤ n ∨ sel = [])) ∧
      (n ≤ 0 → buildItinerary sel n =
        if sel = [] then some { days := [], overflow := [] } else none) := by
  refine ⟨⟨?_, ?_⟩, fun hn => buildItinerary_nonpos hn⟩
  · intro hs
    by_cases hn : 1 ≤ n
    · exact Or.inl hn
    · right
      rw [buildItinerary_nonpos (by omega)] at hs
      by_cases hsel : sel = []
      · exact hsel
      · rw [if_neg hsel] at hs
        simp at hs
  · rintro (hn | rfl)
    · exact buildItinerary_isSome_of_pos hn
    · by_cases hn : 1 ≤ n
      · exact buildItinerary_isSome_of_pos hn
      · rw [buildItinerary_nonpos (by omega)]
        simp

/-- C1 counterexample: with one selected activity and `daysCount = 0` the
builder throws a `TypeError` (`none`) rather than returning no days and
the whole input as overflow. -/
theorem buildItinerary_daysCount_zero_fault :
    buildItinerary [actLouvre] 0 = none := rfl

/-- C1 witness: the amended totality statement at `daysCount = 1` with one
activity, and at `daysCount = 0` with the empty selection. -/
theorem buildItinerary_totality_amended_witness :
    (buildItinerary [actLouvre] 1).isSome ∧
      buildItinerary ([] : List Activity) 0 =
        some { days := [], overflow := [] } := by
  constructor
  · exact (buildItinerary_totality_amended [actLouvre] 1).1.mpr
      (Or.inl (by decide))
  · have h := (buildItinerary_totality_amended [] 0).2 (by decide)
    simpa using h

/-! ### C2 -/

/-- C2: every input activity is scheduled exactly once or overflows exactly
once, never both and never neither: the multiset of activities across all
blocks of all days plus the overflow equals the input multiset. -/
theorem buildItinerary_exactly_once (sel : List Activity) (n : Int)
    (r : BuildResult) (h : buildItinerary sel n = some r) :
    (allScheduled r.days ++ r.overflow).Perm sel ∧
      ∀ a : Activity,
        (allScheduled r.days ++ r.overflow).count a = sel.count a := by
  have hperm := assignLoop_sched_perm (buildItinerary_some h)
  rw [allScheduled_initDays] at hperm
  have hsel : (processOrder sel).Perm sel := List.perm_insertionSort _ sel
  have hmain : (allScheduled r.days ++ r.overflow).Perm sel :=
    hperm.trans (by simpa using hsel)
  exact ⟨hmain, fun a => hmain.count_eq a⟩

/-- C2 witness: the schedule built from one activity over two days holds
exactly that activity. -/
theorem buildItinerary_exactly_once_witness :
    (allScheduled resLouvre2.days ++ resLouvre2.overflow).Perm [actLouvre] :=
  (buildItinerary_exactly_once [actLouvre] 2 resLouvre2 (by decide)).1

/-! ### C3 -/

/-- C3: when all input durations are non-negative, the scheduled minutes of
every block of every returned day stay within that block's initial capacity
(morning 180, afternoon 240, evening 180). -/
theorem buildItinerary_block_capacity (sel : List Activity) (n : Int)
    (r : BuildResult) (h : buildItinerary sel n = some r)
    (hdur : ∀ a ∈ sel, 0 ≤ a.durationMins) :
    ∀ d ∈ r.days, ∀ b, sumDur (d.blocks.get b) ≤ BLOCK_CAPACITY.get b := by
  intro d hd b
  obtain ⟨hcap, hnn, -⟩ :=
    assignLoop_inv (initDays_inv _ _) (buildItinerary_some h) d hd b
  omega

/-- C3 witness: the morning block of the one-activity schedule is within
capacity. -/
theorem buildItinerary_block_capacity_witness :
    sumDur (day0Louvre.blocks.get .morning) ≤ BLOCK_CAPACITY.get .morning :=
  buildItinerary_block_capacity [actLouvre] 1 resLouvre1 rfl
    (by rintro a ha; rcases List.mem_singleton.mp ha with rfl; decide)
    day0Louvre (by simp [resLouvre1]) .morning

/-! ### C4 -/

/-- C4 (amended): whenever `buildItinerary` returns, the days list has
length `max(daysCount, 0)`, which equals `daysCount` for every
`daysCount ≥ 0` (including 0 and selections shorter than `daysCount`);
for negative `daysCount` the length is 0, not `daysCount`. -/
theorem buildItinerary_days_length_amended (sel : List Activity) (n : Int)
    (r : BuildResult) (h : buildItinerary sel n = some r) :
    r.days.length = n.toNat ∧ (0 ≤ n → (r.days.length : Int) = n) := by
  have hl := assignLoop_length (buildItinerary_some h)
  rw [initDays_length] at hl
  refine ⟨hl, fun hn => ?_⟩
  rw [hl]
  omega

/-- C4 counterexample: at `daysCount = -1` (an integer) with the empty
selection the builder returns a days list of length 0, not -1. -/
theorem buildItinerary_days_length_neg_cex :
    buildItinerary [] (-1) = some { days := [], overflow := [] } ∧
      ((({ days := [], overflow := [] } : BuildResult).days.length : Int)
        ≠ -1) :=
  ⟨rfl, by decide⟩

/-- C4 witness: the empty selection over two days yields exactly two days. -/
theorem buildItinerary_days_length_amended_witness :
    resEmpty2.days.length = (2 : Int).toNat :=
  (buildItinerary_days_length_amended [] 2 resEmpty2 rfl).1

/-! ### C5 -/

/-- C5: determinism — two calls with equal selection lists (same order) and
equal day counts return identical results (days, anchors, block contents,
remaining capacities and overflow all equal). -/
theorem buildItinerary_deterministic (sel₁ sel₂ : List Activity)
    (n₁ n₂ : Int) (hsel : sel₁ = sel₂) (hn : n₁ = n₂) :
    buildItinerary sel₁ n₁ = buildItinerary sel₂ n₂ := by
  rw [hsel, hn]

/-- C5 witness: determinism at a concrete input. -/
theorem buildItinerary_deterministic_witness :
    buildItinerary [actLouvre] 2 = buildItinerary [actLouvre] 2 :=
  buildItinerary_deterministic [actLouvre] [actLouvre] 2 2 rfl rfl

/-! ### C10 -/

/-- C10: structural consistency of every returned day: its `dayIndex` is
its position, each block's remaining minutes are the initial capacity minus
the minutes scheduled in it, and every stored item carries the block key it
is stored under. -/
theorem buildItinerary_day_consistency (sel : List Activity) (n : Int)
    (r : BuildResult) (h : buildItinerary sel n = some r) :
    ∀ (i : Nat) (d : ItineraryDay), r.days[i]? = some d →
      d.dayIndex = i ∧
      (∀ b, d.remainingMins.get b =
        BLOCK_CAPACITY.get b - sumDur (d.blocks.get b)) ∧
      (∀ b, ∀ it ∈ d.blocks.get b, it.block = b) := by
  intro i d hg
  have hinv := assignLoop_inv (initDays_inv _ _) (buildItinerary_some h) d
    (mem_of_getElem?_eq hg)
  refine ⟨?_, fun b => (hinv b).1, fun b => (hinv b).2.2⟩
  have hmap := assignLoop_map_eq (fun day a d' hp => placeIntoDay_dayIndex hp)
    (buildItinerary_some h)
  rw [initDays_map_dayIndex] at hmap
  have hidx : (r.days.map fun e => e.dayIndex)[i]? = some d.dayIndex := by
    rw [List.getElem?_map, hg]
    rfl
  rw [hmap] at hidx
  obtain ⟨hlt, heq⟩ := List.getElem?_eq_some.mp hidx
  rw [List.getElem_range] at heq
  exact heq.symm

/-- C10 witness: the day built for one activity sits at index 0 with
`dayIndex = 0`. -/
theorem buildItinerary_day_consistency_witness :
    day0Louvre.dayIndex = 0 :=
  (buildItinerary_day_consistency [actLouvre] 1 resLouvre1 rfl 0 day0Louvre
    rfl).1

/-! ### The integer-scaled scores decide exactly as the rational scores -/

theorem priorityScore10_cast (a : Activity) :
    (priorityScore10 a : ℚ) = 10 * priorityScore a := by
  rw [priorityScore10, priorityScore]
  by_cases h : a.mustBook.getD false <;>
    · simp only [h, if_true, if_false]
      push_cast
      ring

theorem priorityScore10_le_iff (a b : Activity) :
    priorityScore10 a ≤ priorityScore10 b ↔ priorityScore a ≤ priorityScore b := by
  have ha := priorityScore10_cast a
  have hb := priorityScore10_cast b
  constructor
  · intro h
    have hq : (priorityScore10 a : ℚ) ≤ (priorityScore10 b : ℚ) := by
      exact_mod_cast h
    rw [ha, hb] at hq
    linarith
  · intro h
    have hq : (priorityScore10 a : ℚ) ≤ (priorityScore10 b : ℚ) := by
      rw [ha, hb]
      linarith
    exact_mod_cast hq

theorem priorityScore10_lt_iff (a b : Activity) :
    priorityScore10 a < priorityScore10 b ↔ priorityScore a < priorityScore b := by
  rw [← not_le, ← not_le, priorityScore10_le_iff]

theorem dayScore60_cast (day : ItineraryDay) (a : Activity) :
    (dayScore60 day a : ℚ) = 60 * dayScore day a := by
  have hmax : max (0 : ℚ) (600 - (usedMins day : ℚ)) =
      60 * max 0 (10 - (usedMins day : ℚ) / 60) := by
    rw [mul_max_of_nonneg _ _ (by norm_num : (0 : ℚ) ≤ 60), mul_zero]
    congr 1
    ring
  rw [dayScore60, dayScore]
  split_ifs <;>
    · push_cast [Int.cast_max]
      rw [hmax]
      ring

theorem dayScore60_le_iff (d e : ItineraryDay) (a : Activity) :
    dayScore60 d a ≤ dayScore60 e a ↔ dayScore d a ≤ dayScore e a := by
  have hd := dayScore60_cast d a
  have he := dayScore60_cast e a
  constructor
  · intro h
    have hq : (dayScore60 d a : ℚ) ≤ (dayScore60 e a : ℚ) := by exact_mod_cast h
    rw [hd, he] at hq
    linarith
  · intro h
    have hq : (dayScore60 d a : ℚ) ≤ (dayScore60 e a : ℚ) := by
      rw [hd, he]
      linarith
    exact_mod_cast hq

theorem dayScore60_lt_iff (d e : ItineraryDay) (a : Activity) :
    dayScore60 d a < dayScore60 e a ↔ dayScore d a < dayScore e a := by
  rw [← not_le, ← not_le, dayScore60_le_iff]

/-! ### The day score is the spec's additive formula -/

theorem filter_length_pos_iff {α : Type} (l : List α) (p : α → Bool) :
    0 < (l.filter p).length ↔ ∃ x ∈ l, p x := by
  rw [List.length_pos]
  constructor
  · intro h
    rcases List.exists_mem_of_ne_nil _ h with ⟨x, hx⟩
    rcases List.mem_filter.mp hx with ⟨hm, hp⟩
    exact ⟨x, hm, hp⟩
  · rintro ⟨x, hm, hp⟩
    intro hnil
    have hx := List.mem_filter.mpr ⟨hm, hp⟩
    rw [hnil] at hx
    simp at hx

theorem dayScore_eq_specDayScore (day : ItineraryDay) (a : Activity)
    (hanchor : day.anchorNeighborhood ≠ some "") :
    dayScore day a = specDayScore day a := by
  have hanc : (anchorMatches day.anchorNeighborhood a.neighborhood = true) ↔
      day.anchorNeighborhood = some a.neighborhood := by
    cases h' : day.anchorNeighborhood with
    | none => simp [anchorMatches]
    | some nb =>
        have hne : nb ≠ "" := fun hh => hanchor (by rw [h', hh])
        simp [anchorMatches, hne]
  have hcat : (0 <
      ((day.blocks.morning.filter fun x =>
          x.activity.category = a.category).length +
        (day.blocks.afternoon.filter fun x =>
          x.activity.category = a.category).length +
        (day.blocks.evening.filter fun x =>
          x.activity.category = a.category).length)) ↔
      ∃ it ∈ dayActivities day, it.category = a.category := by
    rw [add_pos_iff, add_pos_iff, filter_length_pos_iff, filter_length_pos_iff,
      filter_length_pos_iff]
    simp only [dayActivities, List.mem_map, List.mem_append, decide_eq_true_eq]
    constructor
    · rintro (((⟨x, hx, hpx⟩ | ⟨x, hx, hpx⟩) | ⟨x, hx, hpx⟩)) <;>
        exact ⟨x.activity, ⟨x, by tauto, rfl⟩, hpx⟩
    · rintro ⟨it, ⟨x, hx, rfl⟩, hpx⟩
      rcases hx with (hx | hx) | hx
      · exact Or.inl (Or.inl ⟨x, hx, hpx⟩)
      · exact Or.inl (Or.inr ⟨x, hx, hpx⟩)
      · exact Or.inr ⟨x, hx, hpx⟩
  have hfit : (canFit day a = true) ↔
      ∃ b ∈ preferredBlocks a, a.durationMins ≤ day.remainingMins.get b := by
    simp [canFit, List.any_eq_true]
  rw [dayScore, specDayScore, if_congr hanc rfl rfl, if_congr hcat rfl rfl,
    if_congr hfit rfl rfl]

/-! ### C8 -/

/-- C8: the block placer uses the activity's non-empty `openWindows` list
verbatim, else the category default table (food and night: evening,
afternoon, morning; culture: morning, afternoon, evening; nature, shopping
and others: afternoon, morning, evening); it places into the first block in
that order with enough remaining capacity, and fails exactly when no
preferred block has room. -/
theorem placeIntoDay_spec (a : Activity) (day : ItineraryDay) :
    preferredBlocks a = specPreferredBlocks a ∧
      placeIntoDay day a =
        ((preferredBlocks a).find? fun b =>
          a.durationMins ≤ day.remainingMins.get b).map (applyPlace day a) ∧
      (placeIntoDay day a = none ↔
        ∀ b ∈ preferredBlocks a,
          ¬ a.durationMins ≤ day.remainingMins.get b) := by
  have hdef : ∀ c, categoryDefaultBlocks c = specCategoryOrder c := by
    intro c
    cases c <;> rfl
  refine ⟨?_, placeLoop_eq_find day a _, ?_⟩
  · cases how : a.openWindows with
    | none => simp [preferredBlocks, specPreferredBlocks, how, hdef]
    | some ws =>
        by_cases hws : ws = [] <;>
          simp [preferredBlocks, specPreferredBlocks, how, hws, hdef]
  · rw [placeIntoDay, placeLoop_eq_find]
    simp [Option.map_eq_none', List.find?_eq_none]

/-- C8 witness: the spec block order at a concrete activity and the failure
characterization at a concrete full day. -/
theorem placeIntoDay_spec_witness :
    preferredBlocks actLouvre = specPreferredBlocks actLouvre ∧
      (placeIntoDay dayFull (actsFull[3]) = none ↔
        ∀ b ∈ preferredBlocks (actsFull[3]),
          ¬ (actsFull[3]).durationMins ≤ dayFull.remainingMins.get b) :=
  ⟨(placeIntoDay_spec actLouvre day0Louvre).1,
    (placeIntoDay_spec (actsFull[3]) dayFull).2.2⟩

/-! ### C9 -/

/-- C9: with at least one day, the chosen day is the earliest day of
maximal `dayScore` (iterating in index order, the current best is replaced
only on a strictly greater score); and `dayScore` is exactly the spec's
additive formula (+3 anchor match, +1 same category present, -100 no
fitting preferred block, plus `max(0, 10 - totalUsedMinutes/60)`) whenever
the day's anchor is not the empty string. -/
theorem pickBestIdx_earliest_max (days : List ItineraryDay) (a : Activity)
    (hne : days ≠ []) :
    (∃ i d, pickBestIdx days a = some i ∧ days[i]? = some d ∧
        (∀ (j : Nat) e, days[j]? = some e → dayScore e a ≤ dayScore d a) ∧
        (∀ (j : Nat) e, j < i → days[j]? = some e →
          dayScore e a < dayScore d a)) ∧
      ∀ day : ItineraryDay, day.anchorNeighborhood ≠ some "" →
        dayScore day a = specDayScore day a := by
  constructor
  · obtain ⟨i, d, hp, hg, hall, hstrict⟩ := pickBestIdx_spec days a hne
    exact ⟨i, d, hp, hg,
      fun j e hj => (dayScore60_le_iff e d a).mp (hall j e hj),
      fun j e hji hj => (dayScore60_lt_iff e d a).mp (hstrict j e hji hj)⟩
  · intro day hanchor
    exact dayScore_eq_specDayScore day a hanchor

/-- C9 witness: the selection property for one activity over the two days
built for it. -/
theorem pickBestIdx_earliest_max_witness :
    (∃ i d, pickBestIdx [day0Louvre, emptyDay 1] actLouvre = some i ∧
        [day0Louvre, emptyDay 1][i]? = some d ∧
        (∀ (j : Nat) e, [day0Louvre, emptyDay 1][j]? = some e →
          dayScore e actLouvre ≤ dayScore d actLouvre) ∧
        (∀ (j : Nat) e, j < i → [day0Louvre, emptyDay 1][j]? = some e →
          dayScore e actLouvre < dayScore d actLouvre)) ∧
      ∀ day : ItineraryDay, day.anchorNeighborhood ≠ some "" →
        dayScore day actLouvre = specDayScore day actLouvre :=
  pickBestIdx_earliest_max [day0Louvre, emptyDay 1] actLouvre
    (List.cons_ne_nil _ _)

/-! ### C7 -/

theorem filter_orderedInsert_priority (q : ℚ) (a : Activity)
    (l : List Activity) :
    (List.orderedInsert (fun x y => priorityScore10 y ≤ priorityScore10 x)
        a l).filter (fun x => priorityScore x = q) =
      if priorityScore a = q then
        a :: l.filter (fun x => priorityScore x = q)
      else l.filter (fun x => priorityScore x = q) := by
  rw [List.orderedInsert_eq_take_drop, List.filter_append]
  have hpre : ∀ b ∈ l.takeWhile
      (fun b => decide ¬(priorityScore10 b ≤ priorityScore10 a)),
      priorityScore a < priorityScore b := by
    intro b hb
    have hgt := List.mem_takeWhile_imp hb
    simp only [decide_eq_true_eq, not_le] at hgt
    exact (priorityScore10_lt_iff a b).mp hgt
  by_cases hq : priorityScore a = q
  · have hnil : (l.takeWhile
        (fun b => decide ¬(priorityScore10 b ≤ priorityScore10 a))).filter
        (fun x => priorityScore x = q) = [] := by
      rw [List.filter_eq_nil_iff]
      intro b hb
      have := hpre b hb
      simp only [decide_eq_true_eq]
      intro hbq
      rw [← hq] at hbq
      exact absurd hbq (by linarith)
    rw [hnil, List.nil_append,
      List.filter_cons_of_pos (by simpa using hq), if_pos hq,
      ← List.nil_append (l.dropWhile _ |>.filter _), ← hnil,
      ← List.filter_append, List.takeWhile_append_dropWhile]
  · rw [List.filter_cons_of_neg (by simpa using hq), if_neg hq,
      ← List.filter_append, List.takeWhile_append_dropWhile]

theorem processOrder_filter_stable (sel : List Activity) (q : ℚ) :
    (processOrder sel).filter (fun x => priorityScore x = q) =
      sel.filter (fun x => priorityScore x = q) := by
  induction sel with
  | nil => rfl
  | cons a rest ih =>
      rw [processOrder, List.insertionSort]
      rw [processOrder] at ih
      rw [filter_orderedInsert_priority]
      by_cases hq : priorityScore a = q
      · rw [if_pos hq, ih, List.filter_cons_of_pos (by simpa using hq)]
      · rw [if_neg hq, ih, List.filter_cons_of_neg (by simpa using hq)]

/-- C7: activities are processed in descending `priorityScore` order
(`popularity` defaulting to 50, +15 for `mustBook`, plus a tenth of the
duration), the original relative order is preserved on equal scores, the
processing order is a permutation of the input, and the overflow list is a
subsequence of the processing order (failed activities appear in it in
exactly that order). -/
theorem processOrder_spec (sel : List Activity) (n : Int) (r : BuildResult)
    (h : buildItinerary sel n = some r) :
    (processOrder sel).Pairwise
        (fun a b => priorityScore b ≤ priorityScore a) ∧
      (processOrder sel).Perm sel ∧
      (∀ q : ℚ, (processOrder sel).filter (fun x => priorityScore x = q) =
        sel.filter (fun x => priorityScore x = q)) ∧
      r.overflow.Sublist (processOrder sel) := by
  refine ⟨?_, List.perm_insertionSort _ sel, processOrder_filter_stable sel,
    ?_⟩
  · haveI : IsTotal Activity
        (fun a b => priorityScore10 b ≤ priorityScore10 a) :=
      ⟨fun a b => le_total _ _⟩
    haveI : IsTrans Activity
        (fun a b => priorityScore10 b ≤ priorityScore10 a) :=
      ⟨fun a b c h1 h2 => le_trans h2 h1⟩
    have hs := List.sorted_insertionSort
      (fun a b => priorityScore10 b ≤ priorityScore10 a) sel
    exact hs.imp fun hab => (priorityScore10_le_iff _ _).mp hab
  · obtain ⟨t, ht, hsub⟩ := assignLoop_overflow (buildItinerary_some h)
    rw [ht]
    simpa using hsub

/-- C7 witness: in the capacity-overflow scenario the food activity fails
placement and the overflow is a subsequence of the processing order. -/
theorem processOrder_spec_witness :
    resFull1.overflow.Sublist (processOrder actsFull) :=
  (processOrder_spec actsFull 1 resFull1 (by decide)).2.2.2

/-! ### C6: the `Map`-based counting equals the spec's description -/

theorem bumpCount_map_fst (m : List (String × Nat)) (x : String) :
    (bumpCount m x).map Prod.fst =
      if x ∈ m.map Prod.fst then m.map Prod.fst else m.map Prod.fst ++ [x] := by
  induction m with
  | nil => simp [bumpCount]
  | cons p rest ih =>
      obtain ⟨k, c⟩ := p
      by_cases hk : k = x
      · subst hk
        simp [bumpCount]
      · have hk' : x ≠ k := fun hh => hk hh.symm
        by_cases hx : x ∈ rest.map Prod.fst <;>
          simp [bumpCount, hk, hk', hx, ih]

theorem lookupCount_nil (k : String) : lookupCount [] k = 0 := rfl

theorem lookupCount_cons (p : String × Nat) (rest : List (String × Nat))
    (k : String) :
    lookupCount (p :: rest) k =
      if p.1 = k then p.2 else lookupCount rest k := by
  by_cases h : p.1 = k <;>
    simp [lookupCount, List.find?_cons, h]

theorem lookupCount_bumpCount (m : List (String × Nat)) (x k : String) :
    lookupCount (bumpCount m x) k =
      lookupCount m k + (if x = k then 1 else 0) := by
  induction m with
  | nil =>
      by_cases h : x = k <;>
        simp [bumpCount, lookupCount_cons, lookupCount_nil, h]
  | cons p rest ih =>
      obtain ⟨k0, c⟩ := p
      by_cases hk : k0 = x
      · subst hk
        by_cases hxk : k0 = k <;>
          simp [bumpCount, lookupCount_cons, hxk]
      · rw [bumpCount, if_neg hk]
        by_cases hxk : k0 = k
        · have hxne : ¬ x = k := fun hh => hk (by rw [hxk, hh])
          simp [lookupCount_cons, hxk, hxne]
        · simp [lookupCount_cons, hxk, ih]

theorem bumpCount_nodup {m : List (String × Nat)} (h : (m.map Prod.fst).Nodup)
    (x : String) : ((bumpCount m x).map Prod.fst).Nodup := by
  rw [bumpCount_map_fst]
  by_cases hx : x ∈ m.map Prod.fst
  · simpa [hx] using h
  · simp [hx, List.nodup_append, h]

theorem foldl_bump_map_fst :
    ∀ (names : List String) (m : List (String × Nat)),
      ((names.foldl bumpCount m).map Prod.fst) =
        names.foldl (fun acc x => if x ∈ acc then acc else acc ++ [x])
          (m.map Prod.fst) := by
  intro names
  induction names with
  | nil => intro m; rfl
  | cons x rest ih =>
      intro m
      simp only [List.foldl_cons]
      rw [ih, bumpCount_map_fst]

theorem foldl_bump_lookup :
    ∀ (names : List String) (m : List (String × Nat)) (k : String),
      lookupCount (names.foldl bumpCount m) k =
        lookupCount m k + names.count k := by
  intro names
  induction names with
  | nil => intro m k; simp
  | cons x rest ih =>
      intro m k
      simp only [List.foldl_cons]
      rw [ih, lookupCount_bumpCount, List.count_cons]
      by_cases h : x = k <;> simp [h] <;> omega

theorem foldl_bump_nodup :
    ∀ (names : List String) (m : List (String × Nat)),
      (m.map Prod.fst).Nodup → (((names.foldl bumpCount m).map Prod.fst)).Nodup := by
  intro names
  induction names with
  | nil => intro m h; exact h
  | cons x rest ih =>
      intro m h
      simp only [List.foldl_cons]
      exact ih _ (bumpCount_nodup h x)

theorem assoc_eq_map_of_nodup :
    ∀ (m : List (String × Nat)), (m.map Prod.fst).Nodup →
      m = (m.map Prod.fst).map (fun k => (k, lookupCount m k)) := by
  intro m
  induction m with
  | nil => intro h; rfl
  | cons p rest ih =>
      intro h
      obtain ⟨k0, v0⟩ := p
      simp only [List.map_cons] at h ⊢
      obtain ⟨hk0, hrest⟩ := List.nodup_cons.mp h
      have h0 : lookupCount ((k0, v0) :: rest) k0 = v0 := by
        simp [lookupCount_cons]
      rw [h0]
      have htail : (rest.map Prod.fst).map
          (fun k => (k, lookupCount ((k0, v0) :: rest) k)) =
          (rest.map Prod.fst).map (fun k => (k, lookupCount rest k)) := by
        apply List.map_congr_left
        intro k hk
        have hne : k0 ≠ k := fun hh => hk0 (hh ▸ hk)
        rw [lookupCount_cons, if_neg hne]
      rw [htail, ← ih hrest]

theorem neighborhoodCounts_eq (acts : List Activity) :
    neighborhoodCounts acts =
      (firstSeen (acts.map fun a => a.neighborhood)).map
        (fun s => (s, (acts.map fun a => a.neighborhood).count s)) := by
  have hfold : neighborhoodCounts acts =
      (acts.map fun a => a.neighborhood).foldl bumpCount [] := by
    rw [neighborhoodCounts, List.foldl_map]
  have hkeys : ((acts.map fun a => a.neighborhood).foldl bumpCount []).map
      Prod.fst = firstSeen (acts.map fun a => a.neighborhood) := by
    rw [foldl_bump_map_fst]
    rfl
  have hnodup := foldl_bump_nodup (acts.map fun a => a.neighborhood) []
    (by simp)
  rw [hfold, assoc_eq_map_of_nodup _ hnodup, hkeys]
  apply List.map_congr_left
  intro k hk
  rw [foldl_bump_lookup]
  simp [lookupCount_nil]

theorem sliceTo_map {α β : Type} (f : α → β) (l : List α) (n : Int) :
    sliceTo (l.map f) n = (sliceTo l n).map f := by
  rw [sliceTo, sliceTo, List.length_map, List.map_take]

theorem topNeighborhoodAnchors_eq_spec (acts : List Activity) (n : Int) :
    topNeighborhoodAnchors acts n = specTopNeighborhoodAnchors acts n := by
  rw [topNeighborhoodAnchors, specTopNeighborhoodAnchors, neighborhoodCounts_eq]
  have hmap := List.map_insertionSort
    (fun x y : String =>
      (acts.map fun a => a.neighborhood).count y ≤
        (acts.map fun a => a.neighborhood).count x)
    (fun x y : String × Nat => y.2 ≤ x.2)
    (fun s => (s, (acts.map fun a => a.neighborhood).count s))
    (firstSeen (acts.map fun a => a.neighborhood))
    (fun a _ b _ => Iff.rfl)
  rw [← hmap, ← sliceTo_map, List.map_map]
  have hfst : (Prod.fst ∘ fun s : String =>
      (s, (acts.map fun a => a.neighborhood).count s)) =
      (id : String → String) := rfl
  rw [hfst, List.map_id]

theorem buildItinerary_anchor_assignment {sel : List Activity} {n : Int}
    {r : BuildResult} (h : buildItinerary sel n = some r) :
    ∀ (i : Nat) (d : ItineraryDay), r.days[i]? = some d →
      d.anchorNeighborhood = (topNeighborhoodAnchors sel n)[i]? := by
  intro i d hg
  have hmap := assignLoop_map_eq (fun day a d' hp => placeIntoDay_anchor hp)
    (buildItinerary_some h)
  rw [initDays_map_anchor] at hmap
  have hidx : (r.days.map fun e => e.anchorNeighborhood)[i]? =
      some d.anchorNeighborhood := by
    rw [List.getElem?_map, hg]
    rfl
  rw [hmap, List.getElem?_map] at hidx
  cases hr : (List.range n.toNat)[i]? with
  | none => rw [hr] at hidx; simp at hidx
  | some j =>
      rw [hr] at hidx
      obtain ⟨hlt, hj⟩ := List.getElem?_eq_some.mp hr
      rw [List.getElem_range] at hj
      simp only [Option.map_some', Option.some.injEq] at hidx
      rw [← hidx, ← hj]

/-- C6: the anchor assignment counts neighborhood occurrences, stable-sorts
descending by count (ties by first appearance), takes the first `daysCount`
entries, and gives day `i` the entry at position `i` when it exists (else
none); in the three-Marais/one-Montmartre scenario with two days, day 0 is
anchored at Marais and day 1 at Montmartre. -/
theorem anchors_spec (sel : List Activity) (n : Int) (r : BuildResult)
    (h : buildItinerary sel n = some r) :
    topNeighborhoodAnchors sel n = specTopNeighborhoodAnchors sel n ∧
      (∀ (i : Nat) (d : ItineraryDay), r.days[i]? = some d →
        d.anchorNeighborhood = (topNeighborhoodAnchors sel n)[i]?) ∧
      ((buildItinerary actsMarais 2).map fun res =>
          res.days.map fun d => d.anchorNeighborhood) =
        some [some "Marais", some "Montmartre"] :=
  ⟨topNeighborhoodAnchors_eq_spec sel n,
    buildItinerary_anchor_assignment h, by decide⟩

/-- C6 witness: the anchor of the first Marais-scenario day is the first
ranked neighborhood. -/
theorem anchors_spec_witness :
    dayM0.anchorNeighborhood = (topNeighborhoodAnchors actsMarais 2)[0]? :=
  (anchors_spec actsMarais 2 resMarais2 (by decide)).2.1 0 dayM0 rfl

end Sojou
